import Mathlib

/-!
# SparkCore-Base: the RTOS LED-blink sample (`src/app/main.cpp`)

A shallow embedding of `main` and `Thread_LedBlink`.

* Machine integers (`uint32_t`) are natural numbers reduced modulo `2^32`.
* `float32_t` values are finite IEEE-754 binary32 numbers, kept as exact dyadic
  rationals `± num / 2^scale`; the three operations the thread uses (conversion
  from `uint32_t`, multiplication, conversion to `uint32_t`) are the exactly
  rounded ones (round to nearest, ties to even; truncation for the cast).
* The calls into the kernel, the LED driver and the trace channel are recorded
  as a list of events, in program order.
* The two `while (1)` loops are unrolled a given number of iterations.
-/

namespace SparkCore

/-! ## Machine arithmetic -/

/-- Number of values of the C type `uint32_t`. -/
def UINT32_MOD : Nat := 4294967296

/-- Floor of the base-2 logarithm by repeated halving, `fuel` bounding the depth. -/
def log2Fuel : Nat → Nat → Nat
  | 0, _ => 0
  | fuel + 1, n => if 2 ≤ n then log2Fuel fuel (n / 2) + 1 else 0

/-- Position of the leading one bit of `n` (and `0` for `n = 0`). -/
def ilog2 (n : Nat) : Nat := log2Fuel n n

/-- An exact dyadic rational `(-1)^sign * num / 2^scale`. -/
structure Dyadic where
  sign : Bool
  num : Nat
  scale : Nat
deriving DecidableEq, Repr

/-- The rational number a dyadic stands for. -/
def Dyadic.toRat (x : Dyadic) : ℚ :=
  (if x.sign then -1 else 1) * ((x.num : ℚ) / 2 ^ x.scale)

/-- Number of low bits of `m / 2^scale` that binary32 cannot keep: everything
below the top 24 bits, and everything below the subnormal unit `2^-149`. -/
def dropBits (m scale : Nat) : Nat := max (ilog2 m - 23) (scale - 149)

/-- The C type `float32_t`, restricted to its finite values: dyadics, of which
`Dyadic.isBinary32` singles out the ones binary32 can hold. -/
abbrev float32_t := Dyadic

/-- The dyadic is a finite binary32 number: none of its dropped bits is set and
it is below the overflow threshold `2^128`. -/
def Dyadic.isBinary32 (x : Dyadic) : Prop :=
  x.num % 2 ^ dropBits x.num x.scale = 0 ∧ x.num < 2 ^ (128 + x.scale)

instance (x : Dyadic) : Decidable x.isBinary32 := by
  unfold Dyadic.isBinary32; infer_instance

/-- Round the magnitude `m / 2^scale` to binary32, to nearest with ties to even;
the result is the numerator over the same `2^scale`. -/
def roundNearestEven (m scale : Nat) : Nat :=
  let s := dropBits m scale
  let q := m / 2 ^ s
  let r := m % 2 ^ s
  if 2 * r < 2 ^ s then q * 2 ^ s
  else if 2 * r = 2 ^ s then (if q % 2 = 0 then q else q + 1) * 2 ^ s
  else (q + 1) * 2 ^ s

/-- Rounding of an exact value to `float32_t`. -/
def f32_round (x : Dyadic) : float32_t :=
  { sign := x.sign, num := roundNearestEven x.num x.scale, scale := x.scale }

/-- Conversion `uint32_t → float32_t` (the implicit conversion of `period` in
`dutycycle * period`). -/
def u32_to_f32 (n : Nat) : float32_t :=
  f32_round { sign := false, num := n, scale := 0 }

/-- Single-precision product: the exact product, rounded once. -/
def f32_mul (a b : float32_t) : float32_t :=
  f32_round { sign := xor a.sign b.sign, num := a.num * b.num, scale := a.scale + b.scale }

/-- The cast `(uint32_t) x`: the fractional part is discarded; the conversion is
undefined (`none`) when the integral part is not a `uint32_t` value, which
includes every product that overflowed binary32. -/
def f32_to_u32 (x : float32_t) : Option Nat :=
  let q := x.num / 2 ^ x.scale
  if x.sign then (if q = 0 then some 0 else none)
  else if q < UINT32_MOD then some q else none

/-- The `double` literal `0.1`: the binary64 number nearest to one tenth,
`0x3FB999999999999A`. -/
def literal_0_1 : Dyadic := { sign := false, num := 3602879701896397, scale := 55 }

/-- Lines 130-131: `on_period = (uint32_t)(dutycycle * period)` and
`off_period = period - on_period`, for a given `period` and `dutycycle`. -/
def duty_periods (period : Nat) (dutycycle : float32_t) : Option (Nat × Nat) :=
  match f32_to_u32 (f32_mul dutycycle (u32_to_f32 period)) with
  | none => none
  | some on_period => some (on_period, (period + UINT32_MOD - on_period) % UINT32_MOD)

/-- Line 124: `uint32_t period = 1000`. -/
def period : Nat := 1000

/-- Line 125: `float32_t dutycycle = 0.1`, the literal converted to binary32. -/
def dutycycle : float32_t := f32_round literal_0_1

/-- The binary32 number `0.0`. -/
def f32_zero : float32_t := { sign := false, num := 0, scale := 0 }

/-- The binary32 number `1.0`. -/
def f32_one : float32_t := { sign := false, num := 1, scale := 0 }

/-- The binary32 number `0.5`. -/
def f32_half : float32_t := { sign := false, num := 1, scale := 1 }

/-! ## The CMSIS-RTOS interface (`cmsis_os.h`, not part of the sources) -/

/-- Modelled from the spec: the header `cmsis_os.h` is not among the sources.
The status a kernel call returns is `osOK` or some other value (section 6:
`initialize() -> OK|FAIL`, `start() -> OK|FAIL`). -/
inductive osStatus
  | osOK
  | osError (code : Nat)
deriving DecidableEq, Repr

/-- Modelled from the spec: the type `osThreadId` of `cmsis_os.h` is not among
the sources. The result of `osThreadCreate` is a handle or `NULL` (section 6:
`createTask(descriptor) -> handle|NULL`); `none` is `NULL`. -/
abbrev osThreadId := Option Nat

/-- Modelled from the spec: the enumeration `osPriority` of `cmsis_os.h` is not
among the sources. It is the priority ordinal of a task registration
(section 3), with the level names the program uses and their neighbours. -/
inductive osPriority
  | osPriorityIdle
  | osPriorityLow
  | osPriorityBelowNormal
  | osPriorityNormal
  | osPriorityAboveNormal
  | osPriorityHigh
  | osPriorityRealtime
deriving DecidableEq, Repr

/-- A thread entry point: the one function of this program with the thread
signature, or some other address. -/
inductive os_pthread
  | Thread_LedBlink
  | other (address : Nat)
deriving DecidableEq, Repr

/-- Modelled from the spec: the type `osThreadDef_t` of `cmsis_os.h` is not
among the sources. It is the task descriptor (section 3, TaskRegistration: entry
point, priority, stack budget) that `osThreadDef (name, priority, instances,
stacksz)` declares, one field for each macro argument. -/
structure osThreadDef_t where
  pthread : os_pthread
  tpriority : osPriority
  instances : Nat
  stacksize : Nat
deriving DecidableEq, Repr

/-- The scope holding a declaration of `os_thread_def_Thread_LedBlink`. -/
inductive Scope
  | file
  | mainBlock
deriving DecidableEq, Repr

/-- The declarations of the identifier `os_thread_def_Thread_LedBlink` that are
visible at a point of `main`: the file-scope one (line 47) and, once declared,
the one of the function body. -/
structure Declarations where
  fileScope : osThreadDef_t
  blockScope : Option osThreadDef_t
deriving DecidableEq, Repr

/-- Line 47: `osThreadDef (Thread_LedBlink, osPriorityNormal, 1, 0)` at file
scope. -/
def fileDeclarations : Declarations :=
  { fileScope := { pthread := os_pthread.Thread_LedBlink,
                   tpriority := osPriority.osPriorityNormal,
                   instances := 1, stacksize := 0 },
    blockScope := none }

/-- Modelled from the spec: the macro `osThreadDef` of `cmsis_os.h` is not among
the sources. It declares the static descriptor of the thread `name` (section 9:
a free function plus a static descriptor); used inside a function body (line
90) the object belongs to that block, and an earlier file-scope object of the
same name stays in place and is hidden. -/
def Declarations.osThreadDef (d : Declarations) (x : osThreadDef_t) : Declarations :=
  { d with blockScope := some x }

/-- Modelled from the spec: the macro `osThread` of `cmsis_os.h` is not among the
sources. `osThread (name)` designates the descriptor object of `name` that is
visible at the point of use, which is the innermost declaration. -/
def Declarations.osThread (d : Declarations) : Scope × osThreadDef_t :=
  match d.blockScope with
  | some x => (Scope.mainBlock, x)
  | none => (Scope.file, d.fileScope)

/-! ## Observable events -/

/-- A call that leaves the program: trace output, kernel, LED driver. -/
inductive Event
  | trace_puts (s : String)
  | trace_printf (format : String) (args : List Nat)
  | osKernelInitialize
  | osThreadCreate (scope : Scope) (thread_def : osThreadDef_t) (argument : Option Nat)
  | osKernelStart
  | powerUp
  | turnOn
  | turnOff
  | osDelay (millisec : Nat)
deriving DecidableEq, Repr

/-- The values the three kernel calls of `main` return in one run. -/
structure Kernel where
  osKernelInitialize : osStatus
  osThreadCreate : osThreadId
  osKernelStart : osStatus
deriving DecidableEq, Repr

/-! ## `main` (lines 58-120) -/

/-- Lines 113-118: `while (1)` with an empty body, run for `n` iterations. -/
def idle_loop : Nat → List Event → List Event
  | 0, trace => trace
  | n + 1, trace => idle_loop n trace

/-- The events of `main`, in order, on the run in which the kernel calls return
the values of `kernel`, followed by `idle` iterations of the final loop. -/
def main (SystemCoreClock : Nat) (kernel : Kernel) (idle : Nat) : List Event :=
  let trace := [Event.trace_puts "Hello!"]
  let trace := trace ++ [Event.trace_printf "System Clock: %uHz\n" [SystemCoreClock]]
  let trace := trace ++ [Event.trace_printf "Initializing Kernel..." []]
  let trace := trace ++ [Event.osKernelInitialize]
  let trace :=
    if kernel.osKernelInitialize = osStatus.osOK then
      trace ++ [Event.trace_printf "OK\n" []]
    else
      trace ++ [Event.trace_printf "FAILED\n" []]
  let trace := trace ++ [Event.trace_printf "Creating a thread..." []]
  let decls := fileDeclarations.osThreadDef
    { pthread := os_pthread.Thread_LedBlink, tpriority := osPriority.osPriorityBelowNormal,
      instances := 1, stacksize := 500 }
  let trace := trace ++ [Event.osThreadCreate decls.osThread.1 decls.osThread.2 none]
  let id := kernel.osThreadCreate
  let trace :=
    if id = none then
      trace ++ [Event.trace_printf "FAILED\n" []]
    else
      trace ++ [Event.trace_printf "OK\n" []]
  let trace := trace ++ [Event.trace_printf "Starting Kernel..." []]
  let trace := trace ++ [Event.osKernelStart]
  let trace :=
    if kernel.osKernelStart = osStatus.osOK then
      trace ++ [Event.trace_printf "OK\n" []]
    else
      trace ++ [Event.trace_printf "FAILED\n" []]
  idle_loop idle trace

/-! ## `Thread_LedBlink` (lines 122-148) -/

/-- The locals of `Thread_LedBlink` that change, and the events so far. -/
structure ThreadState where
  seconds : Nat
  trace : List Event
deriving DecidableEq, Repr

/-- Lines 140-146: one pass through the body of the `while (1)` loop. -/
def loop_body (on_period off_period : Nat) (st : ThreadState) : ThreadState :=
  let trace := st.trace ++ [Event.turnOn]
  let trace := trace ++ [Event.osDelay on_period]
  let trace := trace ++ [Event.turnOff]
  let trace := trace ++ [Event.osDelay off_period]
  let seconds := (st.seconds + 1) % UINT32_MOD
  { seconds := seconds,
    trace := trace ++ [Event.trace_printf "Seconds Elapsed: %u\n" [seconds]] }

/-- Lines 138-147: the first `k` iterations of the loop. -/
def loop (on_period off_period : Nat) : Nat → ThreadState → ThreadState
  | 0, st => st
  | k + 1, st => loop_body on_period off_period (loop on_period off_period k st)

/-- The thread function with `period` and `dutycycle` as given, stopped after
`iterations` passes through its loop; `none` when the cast in line 130 is
undefined. -/
def Thread_LedBlink_with (period : Nat) (dutycycle : float32_t) (iterations : Nat) :
    Option ThreadState :=
  match duty_periods period dutycycle with
  | none => none
  | some (on_period, off_period) =>
    some (loop on_period off_period iterations { seconds := 0, trace := [Event.powerUp] })

/-- The thread function as written (lines 122-148), stopped after `iterations`
passes through its loop. -/
def Thread_LedBlink (iterations : Nat) : Option ThreadState :=
  Thread_LedBlink_with period dutycycle iterations

/-! ## Observations on event traces -/

/-- State of the LED pin. -/
inductive LedState
  | ON
  | OFF
deriving DecidableEq, Repr

/-- The LED state changes of a trace. -/
def led_states (trace : List Event) : List LedState :=
  trace.filterMap fun e =>
    match e with
    | Event.turnOn => some LedState.ON
    | Event.turnOff => some LedState.OFF
    | _ => none

/-- The durations passed to `osDelay`, in order. -/
def delays (trace : List Event) : List Nat :=
  trace.filterMap fun e =>
    match e with
    | Event.osDelay ms => some ms
    | _ => none

/-- The values printed by `trace_printf`, in order. -/
def printed_values (trace : List Event) : List Nat :=
  trace.flatMap fun e =>
    match e with
    | Event.trace_printf _ args => args
    | _ => []

/-- The format strings passed to `trace_printf`, in order. -/
def printed_texts (trace : List Event) : List String :=
  trace.filterMap fun e =>
    match e with
    | Event.trace_printf format _ => some format
    | _ => none

/-- The kernel calls of a trace, in order. -/
def kernel_calls (trace : List Event) : List Event :=
  trace.filter fun e =>
    match e with
    | Event.osKernelInitialize => true
    | Event.osThreadCreate _ _ _ => true
    | Event.osKernelStart => true
    | Event.osDelay _ => true
    | _ => false

/-- The step reports of a trace: the `OK` and `FAILED` lines. -/
def reports (trace : List Event) : List String :=
  (printed_texts trace).filter fun s => s = "OK\n" ∨ s = "FAILED\n"

/-- The text that reports a step outcome. -/
def report_text (ok : Bool) : String := if ok then "OK\n" else "FAILED\n"

/-- The descriptors passed to `osThreadCreate`, each with the scope of the
object it is. -/
def thread_creations (trace : List Event) : List (Scope × osThreadDef_t) :=
  trace.filterMap fun e =>
    match e with
    | Event.osThreadCreate scope thread_def _ => some (scope, thread_def)
    | _ => none

/-! ## Facts about the rounding model -/

theorem log2Fuel_spec (fuel : Nat) : ∀ n, n ≤ fuel → n ≠ 0 →
    2 ^ log2Fuel fuel n ≤ n ∧ n < 2 ^ (log2Fuel fuel n + 1) := by
  induction fuel with
  | zero => intro n h0 h1; omega
  | succ fuel ih =>
    intro n hn hne
    unfold log2Fuel
    by_cases h2 : 2 ≤ n
    · rw [if_pos h2]
      have hhalf := ih (n / 2) (by omega) (by omega)
      obtain ⟨ha, hb⟩ := hhalf
      constructor
      · rw [pow_succ]; omega
      · rw [pow_succ]; rw [pow_succ] at hb ⊢; omega
    · rw [if_neg h2]
      constructor <;> simp <;> omega

theorem ilog2_le {n : Nat} (hn : n ≠ 0) : 2 ^ ilog2 n ≤ n :=
  (log2Fuel_spec n n (le_refl n) hn).1

theorem lt_ilog2 {n : Nat} (hn : n ≠ 0) : n < 2 ^ (ilog2 n + 1) :=
  (log2Fuel_spec n n (le_refl n) hn).2

theorem ilog2_zero : ilog2 0 = 0 := rfl

/-- A number below `2^k` has its leading bit below position `k`. -/
theorem ilog2_lt_of_lt_pow {n k : Nat} (hn : n ≠ 0) (h : n < 2 ^ k) : ilog2 n < k := by
  by_contra hk
  have h1 : 2 ^ k ≤ 2 ^ ilog2 n := Nat.pow_le_pow_right (by norm_num) (by omega)
  have h2 := ilog2_le hn
  omega

/-- The bits dropped from `m` all lie below bit `t` when `m ≤ a * 2^t` for a
24-bit `a` and `2^t` is at least the subnormal unit. -/
theorem dropBits_le {m a t scale : Nat} (ha : a < 2 ^ 24) (ht : scale - 149 ≤ t)
    (hm : m ≤ a * 2 ^ t) : dropBits m scale ≤ t := by
  unfold dropBits
  apply max_le _ ht
  by_cases h0 : m = 0
  · subst h0; simp [ilog2_zero]
  · have h1 := ilog2_le h0
    have h2 : a * 2 ^ t < 2 ^ (24 + t) := by
      rw [pow_add]
      exact Nat.mul_lt_mul_of_pos_right ha (Nat.two_pow_pos _)
    have h3 : ilog2 m < 24 + t := ilog2_lt_of_lt_pow h0 (by omega)
    omega

/-- Rounding never crosses a binary32 number: a bound that is itself
representable bounds the rounded value as well. -/
theorem round_le_of_le_repr {m a t : Nat} (scale : Nat) (ha : a < 2 ^ 24) (ht : scale - 149 ≤ t)
    (hm : m ≤ a * 2 ^ t) : roundNearestEven m scale ≤ a * 2 ^ t := by
  have hs := dropBits_le ha ht hm
  obtain ⟨d, hd⟩ := Nat.exists_eq_add_of_le hs
  have hc : a * 2 ^ t = (a * 2 ^ d) * 2 ^ dropBits m scale := by
    rw [hd, pow_add]; ring
  have hpos : 0 < 2 ^ dropBits m scale := Nat.two_pow_pos _
  have hdiv := Nat.div_add_mod m (2 ^ dropBits m scale)
  have hr := Nat.mod_lt m hpos
  have hq : m / 2 ^ dropBits m scale * 2 ^ dropBits m scale ≤ m := Nat.div_mul_le_self _ _
  have hup : 0 < m % 2 ^ dropBits m scale →
      (m / 2 ^ dropBits m scale + 1) * 2 ^ dropBits m scale ≤ a * 2 ^ t := by
    intro hpos_r
    rw [hc]
    apply Nat.mul_le_mul_right
    have hlt : m / 2 ^ dropBits m scale * 2 ^ dropBits m scale
        < (a * 2 ^ d) * 2 ^ dropBits m scale := by
      rw [← hc]
      have : m / 2 ^ dropBits m scale * 2 ^ dropBits m scale < m := by
        rw [Nat.mul_comm]; omega
      omega
    exact Nat.lt_of_mul_lt_mul_right hlt
  unfold roundNearestEven
  simp only
  split_ifs with h1 h2 h3
  · omega
  · omega
  · exact hup (by omega)
  · exact hup (by omega)

/-- A numerator with no dropped bit set is left unchanged by rounding. -/
theorem round_exact {m scale : Nat} (h : m % 2 ^ dropBits m scale = 0) :
    roundNearestEven m scale = m := by
  unfold roundNearestEven
  simp only [h]
  rw [if_pos (by simp)]
  exact Nat.div_mul_cancel (Nat.dvd_of_mod_eq_zero h)

/-- Integers below `2^24` convert to `float32_t` exactly. -/
theorem round_small {m : Nat} (h : m < 2 ^ 24) : roundNearestEven m 0 = m := by
  apply round_exact
  have : dropBits m 0 = 0 := by
    unfold dropBits
    by_cases h0 : m = 0
    · subst h0; simp [ilog2_zero]
    · have := ilog2_lt_of_lt_pow h0 h
      simp; omega
  rw [this]; exact Nat.mod_one m

/-- A positive dyadic has a clear sign and a nonzero numerator. -/
theorem Dyadic.pos_iff {x : Dyadic} (h : 0 < x.toRat) : x.sign = false ∧ 0 < x.num := by
  unfold Dyadic.toRat at h
  have h2 : (0 : ℚ) < 2 ^ x.scale := by positivity
  have h3 : (0 : ℚ) ≤ (x.num : ℚ) / 2 ^ x.scale := by positivity
  cases hs : x.sign with
  | true =>
    rw [hs] at h
    simp only [if_true] at h
    linarith
  | false =>
    rw [hs] at h
    simp only [Bool.false_eq_true, if_false, one_mul] at h
    refine ⟨rfl, ?_⟩
    by_contra h0
    have : x.num = 0 := by omega
    rw [this] at h
    simp at h

/-- A nonnegative dyadic below one has its numerator below `2^scale`. -/
theorem Dyadic.lt_one {x : Dyadic} (hs : x.sign = false) (h : x.toRat < 1) :
    x.num < 2 ^ x.scale := by
  unfold Dyadic.toRat at h
  rw [hs] at h
  simp only [Bool.false_eq_true, if_false, one_mul] at h
  have h2 : (0 : ℚ) < 2 ^ x.scale := by positivity
  rw [div_lt_one h2] at h
  exact_mod_cast h

/-- A binary32 numerator is a 24-bit number times the power of two of its
dropped bits. -/
theorem Dyadic.isBinary32_repr {x : Dyadic} (h : x.isBinary32) :
    ∃ a, a < 2 ^ 24 ∧ x.num = a * 2 ^ dropBits x.num x.scale := by
  refine ⟨x.num / 2 ^ dropBits x.num x.scale, ?_, ?_⟩
  · rw [Nat.div_lt_iff_lt_mul (Nat.two_pow_pos _), ← pow_add]
    by_cases h0 : x.num = 0
    · rw [h0]; exact Nat.two_pow_pos _
    · have h1 := lt_ilog2 h0
      have h2 : ilog2 x.num - 23 ≤ dropBits x.num x.scale := le_max_left _ _
      have h3 : 2 ^ (ilog2 x.num + 1) ≤ 2 ^ (24 + dropBits x.num x.scale) :=
        Nat.pow_le_pow_right (by norm_num) (by omega)
      omega
  · exact (Nat.div_mul_cancel (Nat.dvd_of_mod_eq_zero h.1)).symm

/-- The cast of a clear-signed value with an integral part in range. -/
theorem f32_to_u32_of_lt {x : float32_t} (hs : x.sign = false)
    (h : x.num / 2 ^ x.scale < UINT32_MOD) : f32_to_u32 x = some (x.num / 2 ^ x.scale) := by
  unfold f32_to_u32
  simp only [hs, Bool.false_eq_true, if_false]
  rw [if_pos h]

/-- Lines 130-131 on a clear-signed fraction, unfolded. -/
theorem duty_periods_eq {p : Nat} {f : float32_t} (hs : f.sign = false)
    (h : roundNearestEven (f.num * roundNearestEven p 0) f.scale / 2 ^ f.scale
      < UINT32_MOD) :
    duty_periods p f = some
      (roundNearestEven (f.num * roundNearestEven p 0) f.scale / 2 ^ f.scale,
       (p + UINT32_MOD
          - roundNearestEven (f.num * roundNearestEven p 0) f.scale / 2 ^ f.scale)
        % UINT32_MOD) := by
  have hmul : f32_mul f (u32_to_f32 p) =
      { sign := false, num := roundNearestEven (f.num * roundNearestEven p 0) f.scale,
        scale := f.scale } := by
    unfold f32_mul u32_to_f32 f32_round
    rw [hs]
    rfl
  have hcast := f32_to_u32_of_lt (x := f32_mul f (u32_to_f32 p)) (by rw [hmul])
    (by rw [hmul]; dsimp only; exact h)
  unfold duty_periods
  rw [hcast, hmul]


theorem le_ilog2 {n k : Nat} (h : 2 ^ k ≤ n) : k ≤ ilog2 n := by
  have hn : n ≠ 0 := by
    have := Nat.two_pow_pos k
    omega
  have h1 := lt_ilog2 hn
  have h2 : 2 ^ k < 2 ^ (ilog2 n + 1) := by omega
  have h3 := (Nat.pow_lt_pow_iff_right (by norm_num : 1 < 2)).1 h2
  omega

/-- A value strictly below the midpoint above a binary32 number `q * 2^t` rounds
to at most that number. -/
theorem round_le_of_lt_mid {m q t : Nat} (scale : Nat) (hq1 : 2 ^ 23 ≤ q) (hq2 : q < 2 ^ 24)
    (ht : scale - 149 ≤ t) (hm : 2 * m < 2 * (q * 2 ^ t) + 2 ^ t) :
    roundNearestEven m scale ≤ q * 2 ^ t := by
  by_cases hle : m ≤ q * 2 ^ t
  · exact round_le_of_le_repr scale hq2 ht hle
  · have hpos : 0 < 2 ^ t := Nat.two_pow_pos t
    have hlow : 2 ^ (23 + t) ≤ m := by
      have : 2 ^ (23 + t) ≤ q * 2 ^ t := by
        rw [pow_add]; exact Nat.mul_le_mul_right _ hq1
      omega
    have hhigh : m < 2 ^ (24 + t) := by
      have : (q + 1) * 2 ^ t ≤ 2 ^ (24 + t) := by
        rw [pow_add]; exact Nat.mul_le_mul_right _ (by omega)
      rw [Nat.add_mul] at this
      omega
    have hm0 : m ≠ 0 := by omega
    have h1 := le_ilog2 hlow
    have h2 := ilog2_lt_of_lt_pow hm0 hhigh
    have hdrop : dropBits m scale = t := by
      unfold dropBits
      have : ilog2 m - 23 = t := by omega
      rw [this]; exact max_eq_left ht
    have hq : m / 2 ^ t = q := by
      apply Nat.div_eq_of_lt_le
      · omega
      · rw [Nat.add_mul]; omega
    have hr : 2 * (m % 2 ^ t) < 2 ^ t := by
      have := Nat.div_add_mod m (2 ^ t)
      rw [hq, Nat.mul_comm] at this
      omega
    unfold roundNearestEven
    simp only [hdrop, hq]
    rw [if_pos hr]

theorem frac_core {a X : Nat} (ha : a < 16777216) (hX : a < X) :
    16777216 * a + X ≤ 16777216 * X := by
  omega

/-- A binary32 fraction below one is at most `1 - 2^-24`. -/
theorem Dyadic.frac_le {x : Dyadic} (hx : x.isBinary32) (h1 : x.num < 2 ^ x.scale) :
    16777216 * x.num + 2 ^ x.scale ≤ 16777216 * 2 ^ x.scale := by
  obtain ⟨a, ha, hnum⟩ := Dyadic.isBinary32_repr hx
  have hd : dropBits x.num x.scale ≤ x.scale := by
    unfold dropBits
    apply max_le _ (by omega)
    by_cases h0 : x.num = 0
    · rw [h0]; simp [ilog2_zero]
    · have := ilog2_lt_of_lt_pow h0 h1
      omega
  obtain ⟨d, hdd⟩ : ∃ d, d = dropBits x.num x.scale := ⟨_, rfl⟩
  rw [← hdd] at hnum hd
  obtain ⟨e, he⟩ := Nat.exists_eq_add_of_le hd
  have hsplit : 2 ^ x.scale = 2 ^ e * 2 ^ d := by
    rw [he, pow_add]; ring
  have hae : a < 2 ^ e := by
    rw [hnum, hsplit] at h1
    exact Nat.lt_of_mul_lt_mul_right h1
  have hcore := frac_core (by simpa using ha) hae
  have := Nat.mul_le_mul_right (2 ^ d) hcore
  rw [hsplit, hnum]
  calc 16777216 * (a * 2 ^ d) + 2 ^ e * 2 ^ d
      = (16777216 * a + 2 ^ e) * 2 ^ d := by ring
    _ ≤ 16777216 * 2 ^ e * 2 ^ d := this
    _ = 16777216 * (2 ^ e * 2 ^ d) := by ring

/-- The conversion of `p` to `float32_t` gives the binary32 number just below
`p`, or the one just above it when `p` itself is not representable. -/
theorem round_u32_cases (p : Nat) :
    roundNearestEven p 0 = p / 2 ^ dropBits p 0 * 2 ^ dropBits p 0 ∨
    (roundNearestEven p 0 = (p / 2 ^ dropBits p 0 + 1) * 2 ^ dropBits p 0 ∧
      0 < p % 2 ^ dropBits p 0) := by
  unfold roundNearestEven
  simp only
  have hpos : 0 < 2 ^ dropBits p 0 := Nat.two_pow_pos _
  split_ifs with h1 h2 h3
  · left; rfl
  · left; rfl
  · right; exact ⟨rfl, by omega⟩
  · right; exact ⟨rfl, by omega⟩

theorem mid_core {N S A B : Nat} (hB : 16777216 * N + S ≤ 16777216 * S)
    (hA : 16777216 * A + B ≤ 16777216 * B) (hq : 8388608 * S ≤ B) (hS : 0 < S) :
    2 * (A + N) < 2 * B + S := by
  omega

/-- The product of a binary32 fraction below one and a converted `uint32_t`
value stays strictly below the midpoint above the binary32 number under `p`. -/
theorem mul_lt_mid {N S q : Nat} (hB : 16777216 * N + S ≤ 16777216 * S)
    (hq : 8388608 ≤ q) (hS : 0 < S) : 2 * (N * (q + 1)) < 2 * (q * S) + S := by
  have hA : 16777216 * (N * q) + S * q ≤ 16777216 * (S * q) := by
    have := Nat.mul_le_mul_right q hB
    calc 16777216 * (N * q) + S * q = (16777216 * N + S) * q := by ring
      _ ≤ 16777216 * S * q := this
      _ = 16777216 * (S * q) := by ring
  have hq2 : 8388608 * S ≤ S * q := by
    rw [Nat.mul_comm]; exact Nat.mul_le_mul_left S hq
  have := mid_core hB hA hq2 hS
  calc 2 * (N * (q + 1)) = 2 * (N * q + N) := by ring
    _ < 2 * (S * q) + S := this
    _ = 2 * (q * S) + S := by ring

/-- The integral part of the rounded product in line 130 does not exceed
`period`. -/
theorem on_period_le (p : Nat) {f : float32_t} (hf : f.isBinary32)
    (h1 : f.num < 2 ^ f.scale) :
    roundNearestEven (f.num * roundNearestEven p 0) f.scale / 2 ^ f.scale ≤ p := by
  obtain ⟨s, hs⟩ : ∃ s, s = dropBits p 0 := ⟨_, rfl⟩
  obtain ⟨q, hq⟩ : ∃ q, q = p / 2 ^ s := ⟨_, rfl⟩
  have hps : 0 < 2 ^ s := Nat.two_pow_pos s
  have hS : 0 < 2 ^ f.scale := Nat.two_pow_pos _
  have hD : q * 2 ^ s ≤ p := by rw [hq]; exact Nat.div_mul_le_self _ _
  have hs1 : ilog2 p - 23 ≤ s := by rw [hs]; exact le_max_left _ _
  have hs2 : s ≤ ilog2 p - 23 := by
    rw [hs]; unfold dropBits; exact max_le (le_refl _) (by omega)
  have hq24 : q < 2 ^ 24 := by
    rw [hq, Nat.div_lt_iff_lt_mul hps, ← pow_add]
    by_cases h0 : p = 0
    · rw [h0]; exact Nat.two_pow_pos _
    · have h2 := lt_ilog2 h0
      have h3 : 2 ^ (ilog2 p + 1) ≤ 2 ^ (24 + s) :=
        Nat.pow_le_pow_right (by norm_num) (by omega)
      omega
  have key : roundNearestEven (f.num * roundNearestEven p 0) f.scale
      ≤ q * 2 ^ (s + f.scale) := by
    rcases round_u32_cases p with hR | ⟨hR, hrem⟩
    · rw [hR, ← hs, ← hq]
      apply round_le_of_le_repr f.scale hq24 (by omega)
      calc f.num * (q * 2 ^ s) ≤ 2 ^ f.scale * (q * 2 ^ s) :=
            Nat.mul_le_mul_right _ (by omega)
        _ = q * 2 ^ (s + f.scale) := by rw [pow_add]; ring
    · rw [← hs] at hR hrem
      rw [← hq] at hR
      have hs0 : s ≠ 0 := by
        intro h
        rw [h] at hrem
        simp [Nat.mod_one] at hrem
      have hp0 : p ≠ 0 := by
        intro h
        rw [h] at hrem
        simp at hrem
      have hq23 : 2 ^ 23 ≤ q := by
        rw [hq, Nat.le_div_iff_mul_le hps, ← pow_add]
        have h2 := ilog2_le hp0
        have h3 : 2 ^ (23 + s) ≤ 2 ^ ilog2 p := Nat.pow_le_pow_right (by norm_num) (by omega)
        omega
      rw [hR]
      apply round_le_of_lt_mid f.scale hq23 hq24 (by omega)
      have hmid := mul_lt_mid (q := q) (Dyadic.frac_le hf h1) (by simpa using hq23) hS
      have := Nat.mul_lt_mul_of_pos_right hmid hps
      calc 2 * (f.num * ((q + 1) * 2 ^ s)) = 2 * (f.num * (q + 1)) * 2 ^ s := by ring
        _ < (2 * (q * 2 ^ f.scale) + 2 ^ f.scale) * 2 ^ s := this
        _ = 2 * (q * 2 ^ (s + f.scale)) + 2 ^ (s + f.scale) := by rw [pow_add]; ring
  calc roundNearestEven (f.num * roundNearestEven p 0) f.scale / 2 ^ f.scale
      ≤ q * 2 ^ (s + f.scale) / 2 ^ f.scale := Nat.div_le_div_right key
    _ = q * 2 ^ s := by
        rw [pow_add, ← Nat.mul_assoc]
        exact Nat.mul_div_cancel _ hS
    _ ≤ p := hD

/-- Rounding never crosses a binary32 number from above either: a representable
lower bound of the value is a lower bound of the rounded value. -/
theorem round_ge_of_ge_repr {m a t : Nat} (scale : Nat) (ha : a < 2 ^ 24)
    (ht : scale - 149 ≤ t) (hm : a * 2 ^ t ≤ m) : a * 2 ^ t ≤ roundNearestEven m scale := by
  obtain ⟨s, hs⟩ : ∃ s, s = dropBits m scale := ⟨_, rfl⟩
  have hps : 0 < 2 ^ s := Nat.two_pow_pos s
  have hdown : a * 2 ^ t ≤ m / 2 ^ s * 2 ^ s := by
    by_cases hst : s ≤ t
    · obtain ⟨d, hd⟩ := Nat.exists_eq_add_of_le hst
      have hc : a * 2 ^ t = (a * 2 ^ d) * 2 ^ s := by rw [hd, pow_add]; ring
      rw [hc]
      apply Nat.mul_le_mul_right
      rw [Nat.le_div_iff_mul_le hps, ← hc]
      exact hm
    · have hlog : ilog2 m - 23 = s := by
        have h1 : s = max (ilog2 m - 23) (scale - 149) := hs
        have h2 := le_max_left (ilog2 m - 23) (scale - 149)
        rcases max_choice (ilog2 m - 23) (scale - 149) with h3 | h3
        · omega
        · omega
      have hm0 : m ≠ 0 := by
        intro h
        rw [h, ilog2_zero] at hlog
        omega
      have h4 := ilog2_le hm0
      have h5 : 2 ^ (23 + s) ≤ 2 ^ ilog2 m := Nat.pow_le_pow_right (by norm_num) (by omega)
      have hq : 2 ^ 23 ≤ m / 2 ^ s := by
        rw [Nat.le_div_iff_mul_le hps, ← pow_add]
        omega
      have h6 : a * 2 ^ t ≤ 2 ^ 24 * 2 ^ t := Nat.mul_le_mul_right _ (by omega)
      have h7 : 2 ^ 24 * 2 ^ t ≤ 2 ^ 23 * 2 ^ s := by
        rw [← pow_add, ← pow_add]
        exact Nat.pow_le_pow_right (by norm_num) (by omega)
      have h8 : 2 ^ 23 * 2 ^ s ≤ m / 2 ^ s * 2 ^ s := Nat.mul_le_mul_right _ hq
      omega
  have hup : m / 2 ^ s * 2 ^ s ≤ (m / 2 ^ s + 1) * 2 ^ s :=
    Nat.mul_le_mul_right _ (by omega)
  unfold roundNearestEven
  simp only [← hs]
  split_ifs with h1 h2 h3
  · exact hdown
  · exact hdown
  · omega
  · omega

/-- For a period below `2^24` and a fraction below one, the integral part of the
rounded product is the integral part of the exact product, or one more. -/
theorem on_period_near_floor {p : Nat} {f : float32_t} (hp : p < 2 ^ 24)
    (h1 : f.num < 2 ^ f.scale) :
    f.num * p / 2 ^ f.scale ≤ roundNearestEven (f.num * p) f.scale / 2 ^ f.scale ∧
    roundNearestEven (f.num * p) f.scale / 2 ^ f.scale ≤ f.num * p / 2 ^ f.scale + 1 := by
  have hS : 0 < 2 ^ f.scale := Nat.two_pow_pos _
  have hFp : f.num * p / 2 ^ f.scale ≤ p := by
    apply Nat.div_le_of_le_mul
    exact Nat.mul_le_mul_right p (by omega)
  constructor
  · rw [Nat.le_div_iff_mul_le hS]
    exact round_ge_of_ge_repr f.scale (by omega) (by omega) (Nat.div_mul_le_self _ _)
  · have hF1 : f.num * p / 2 ^ f.scale + 1 < 2 ^ 24 := by
      by_cases hp0 : p = 0
      · rw [hp0]; simp
      · have : f.num * p / 2 ^ f.scale < p := by
          rw [Nat.div_lt_iff_lt_mul hS, Nat.mul_comm p]
          exact Nat.mul_lt_mul_of_pos_right h1 (by omega)
        omega
    have hm : f.num * p ≤ (f.num * p / 2 ^ f.scale + 1) * 2 ^ f.scale := by
      have h2 := Nat.div_add_mod (f.num * p) (2 ^ f.scale)
      have h3 := Nat.mod_lt (f.num * p) hS
      rw [Nat.add_mul, Nat.mul_comm (f.num * p / 2 ^ f.scale)]
      omega
    have h4 := round_le_of_le_repr f.scale hF1 (by omega) hm
    apply Nat.div_le_of_le_mul
    rw [Nat.mul_comm (2 ^ f.scale)]
    exact h4

/-- The floor of a dyadic rational is a natural-number division. -/
theorem floor_dyadic (n k : Nat) : ⌊(n : ℚ) / 2 ^ k⌋₊ = n / 2 ^ k := by
  have h := Nat.floor_div_eq_div (α := ℚ) n (2 ^ k)
  rw [Nat.cast_pow] at h
  exact h

/-- The `double` literal `0.1` is within half a unit in the last place of
binary64 of one tenth, and `dutycycle` within half a unit of binary32. -/
theorem dutycycle_nearest :
    |literal_0_1.toRat - 1 / 10| ≤ 1 / 2 ^ 57 ∧ literal_0_1.num < 2 ^ 53 ∧
    dutycycle = { sign := false, num := 13421773 * 2 ^ 28, scale := 55 } ∧
    dutycycle.isBinary32 ∧ |dutycycle.toRat - 1 / 10| ≤ 1 / 2 ^ 28 := by
  have hd : dutycycle = { sign := false, num := 13421773 * 2 ^ 28, scale := 55 } := by
    decide
  refine ⟨?_, by decide, hd, by decide, ?_⟩
  · rw [abs_le]
    constructor <;> norm_num [Dyadic.toRat, literal_0_1]
  · rw [hd, abs_le]
    constructor <;> norm_num [Dyadic.toRat]

/-! ## Facts about the blink loop -/

theorem led_states_append (a b : List Event) :
    led_states (a ++ b) = led_states a ++ led_states b := by
  unfold led_states; exact List.filterMap_append _ _ _

theorem delays_append (a b : List Event) : delays (a ++ b) = delays a ++ delays b := by
  unfold delays; exact List.filterMap_append _ _ _

theorem printed_values_append (a b : List Event) :
    printed_values (a ++ b) = printed_values a ++ printed_values b := by
  unfold printed_values; simp

/-- The trace of one loop pass: the five events, appended. -/
theorem loop_body_trace (n f : Nat) (st : ThreadState) :
    (loop_body n f st).trace = st.trace ++
      [Event.turnOn, Event.osDelay n, Event.turnOff, Event.osDelay f,
       Event.trace_printf "Seconds Elapsed: %u\n" [(st.seconds + 1) % UINT32_MOD]] := by
  unfold loop_body; simp

theorem loop_body_seconds (n f : Nat) (st : ThreadState) :
    (loop_body n f st).seconds = (st.seconds + 1) % UINT32_MOD := rfl

/-- The counter after `k` passes, as a `uint32_t`. -/
theorem loop_seconds (n f : Nat) (st : ThreadState) (h : st.seconds < UINT32_MOD) (k : Nat) :
    (loop n f k st).seconds = (st.seconds + k) % UINT32_MOD := by
  induction k with
  | zero => simp [loop, Nat.mod_eq_of_lt h]
  | succ k ih =>
    simp only [loop, loop_body_seconds, ih]
    unfold UINT32_MOD
    omega

/-- The LED state changes after `k` passes. -/
theorem loop_led_states (n f : Nat) (st : ThreadState) (k : Nat) :
    led_states (loop n f k st).trace =
      led_states st.trace ++ (List.replicate k [LedState.ON, LedState.OFF]).flatten := by
  induction k with
  | zero => simp [loop]
  | succ k ih =>
    simp only [loop, loop_body_trace, led_states_append, ih, List.replicate_succ',
      List.flatten_append, List.append_assoc]
    simp [led_states]

/-- The values printed after `k` passes. -/
theorem loop_printed_values (n f : Nat) (st : ThreadState) (h : st.seconds < UINT32_MOD)
    (k : Nat) :
    printed_values (loop n f k st).trace =
      printed_values st.trace ++
        (List.range k).map (fun i => (st.seconds + i + 1) % UINT32_MOD) := by
  induction k with
  | zero => simp [loop]
  | succ k ih =>
    simp only [loop, loop_body_trace, printed_values_append, ih, List.range_succ,
      List.map_append, List.append_assoc, loop_seconds n f st h k]
    simp [printed_values]

/-- The program's own duty-cycle split. -/
theorem duty_periods_program : duty_periods period dutycycle = some (100, 900) := by
  decide

/-- The thread as written runs its loop with the durations 100 and 900. -/
theorem Thread_LedBlink_eq (k : Nat) :
    Thread_LedBlink k = some (loop 100 900 k { seconds := 0, trace := [Event.powerUp] }) := by
  unfold Thread_LedBlink Thread_LedBlink_with
  rw [duty_periods_program]

/-! ## Facts about `main` -/

/-- The final loop of `main` adds no event. -/
theorem idle_loop_eq (n : Nat) (trace : List Event) : idle_loop n trace = trace := by
  induction n with
  | zero => rfl
  | succ n ih => simpa [idle_loop] using ih

/-- The events of `main`, written out. -/
theorem main_trace (clock : Nat) (kernel : Kernel) (idle : Nat) :
    main clock kernel idle =
      [Event.trace_puts "Hello!",
       Event.trace_printf "System Clock: %uHz\n" [clock],
       Event.trace_printf "Initializing Kernel..." [],
       Event.osKernelInitialize,
       Event.trace_printf (report_text (decide (kernel.osKernelInitialize = osStatus.osOK))) [],
       Event.trace_printf "Creating a thread..." [],
       Event.osThreadCreate Scope.mainBlock
         { pthread := os_pthread.Thread_LedBlink,
           tpriority := osPriority.osPriorityBelowNormal,
           instances := 1, stacksize := 500 } none,
       Event.trace_printf (report_text (decide (kernel.osThreadCreate ≠ none))) [],
       Event.trace_printf "Starting Kernel..." [],
       Event.osKernelStart,
       Event.trace_printf (report_text (decide (kernel.osKernelStart = osStatus.osOK))) []] := by
  unfold main
  simp only [idle_loop_eq]
  by_cases h1 : kernel.osKernelInitialize = osStatus.osOK <;>
  by_cases h2 : kernel.osThreadCreate = none <;>
  by_cases h3 : kernel.osKernelStart = osStatus.osOK <;>
  simp [h1, h2, h3, report_text, Declarations.osThread, Declarations.osThreadDef,
    fileDeclarations]

/-! ## The claims about `main` -/

/-- C4: whatever the three kernel calls return, `main` makes all three of them
and emits one report line for each; in particular, when `osKernelInitialize`
returns a status other than `osOK`, `osThreadCreate` and `osKernelStart` are
still called, in that order, and each of the three steps is reported. -/
theorem main_attempts_every_step (clock : Nat) (kernel : Kernel) (idle code : Nat) :
    Event.osKernelInitialize ∈ main clock kernel idle ∧
    (∃ scope d a, Event.osThreadCreate scope d a ∈ main clock kernel idle) ∧
    Event.osKernelStart ∈ main clock kernel idle ∧
    (reports (main clock kernel idle)).length = 3 ∧
    kernel_calls (main clock { kernel with osKernelInitialize := osStatus.osError code } idle) =
      [Event.osKernelInitialize,
       Event.osThreadCreate Scope.mainBlock
         { pthread := os_pthread.Thread_LedBlink,
           tpriority := osPriority.osPriorityBelowNormal,
           instances := 1, stacksize := 500 } none,
       Event.osKernelStart] ∧
    reports (main clock { kernel with osKernelInitialize := osStatus.osError code } idle) =
      ["FAILED\n",
       if kernel.osThreadCreate = none then "FAILED\n" else "OK\n",
       if kernel.osKernelStart = osStatus.osOK then "OK\n" else "FAILED\n"] := by
  simp only [main_trace]
  refine ⟨by simp, ⟨Scope.mainBlock, ⟨os_pthread.Thread_LedBlink,
    osPriority.osPriorityBelowNormal, 1, 500⟩, none, by simp⟩, by simp, ?_,
    by simp [kernel_calls], ?_⟩
  · by_cases h1 : kernel.osKernelInitialize = osStatus.osOK <;>
    by_cases h2 : kernel.osThreadCreate = none <;>
    by_cases h3 : kernel.osKernelStart = osStatus.osOK <;>
    simp [reports, printed_texts, report_text, h1, h2, h3]
  · by_cases h2 : kernel.osThreadCreate = none <;>
    by_cases h3 : kernel.osKernelStart = osStatus.osOK <;>
    simp [reports, printed_texts, report_text, h2, h3]

/-- C5: after the clock line, the text `main` emits is the announcement of each
of the three steps followed at once by that step's report, which is `OK` exactly
when the step succeeded (`osKernelInitialize () == osOK`, a non-NULL thread id,
`osKernelStart () == osOK`) and `FAILED` otherwise; each step is reported
exactly once. -/
theorem main_reports_each_step (clock : Nat) (kernel : Kernel) (idle : Nat) :
    (printed_texts (main clock kernel idle)).drop 1 =
      ["Initializing Kernel...",
       if kernel.osKernelInitialize = osStatus.osOK then "OK\n" else "FAILED\n",
       "Creating a thread...",
       if kernel.osThreadCreate = none then "FAILED\n" else "OK\n",
       "Starting Kernel...",
       if kernel.osKernelStart = osStatus.osOK then "OK\n" else "FAILED\n"] ∧
    reports (main clock kernel idle) =
      [if kernel.osKernelInitialize = osStatus.osOK then "OK\n" else "FAILED\n",
       if kernel.osThreadCreate = none then "FAILED\n" else "OK\n",
       if kernel.osKernelStart = osStatus.osOK then "OK\n" else "FAILED\n"] := by
  simp only [main_trace]
  by_cases h1 : kernel.osKernelInitialize = osStatus.osOK <;>
  by_cases h2 : kernel.osThreadCreate = none <;>
  by_cases h3 : kernel.osKernelStart = osStatus.osOK <;>
  simp [reports, printed_texts, report_text, h1, h2, h3]

/-- C6: in every run of `main` the kernel calls are `osKernelInitialize`, then
`osThreadCreate`, then `osKernelStart`, each exactly once, and none follows
`osKernelStart`, however long the final loop runs. -/
theorem main_kernel_call_order (clock : Nat) (kernel : Kernel) (idle : Nat) :
    kernel_calls (main clock kernel idle) =
      [Event.osKernelInitialize,
       Event.osThreadCreate Scope.mainBlock
         { pthread := os_pthread.Thread_LedBlink,
           tpriority := osPriority.osPriorityBelowNormal,
           instances := 1, stacksize := 500 } none,
       Event.osKernelStart] ∧
    main clock kernel idle = main clock kernel 0 := by
  simp only [main_trace]
  simp [kernel_calls]

/-- C8, as stated, fails: with `osKernelInitialize` returning an error and
`osThreadCreate` returning a thread id, `main` reports the initialization as
`FAILED` and the task registration as `OK`. -/
theorem registration_ok_after_failed_init :
    (Kernel.mk (osStatus.osError 1) (some 1) osStatus.osOK).osKernelInitialize
        ≠ osStatus.osOK ∧
    reports (main 72000000 (Kernel.mk (osStatus.osError 1) (some 1) osStatus.osOK) 0) =
      ["FAILED\n", "OK\n", "OK\n"] := by
  decide

/-- C8, amended: `main` calls `osThreadCreate` after `osKernelInitialize` and
never before it, and the task-registration step reports `OK` exactly when
`osThreadCreate` returned a non-NULL id, whatever `osKernelInitialize`
returned. -/
theorem registration_report_iff (clock : Nat) (kernel : Kernel) (idle : Nat) :
    ((reports (main clock kernel idle))[1]? = some "OK\n" ↔ kernel.osThreadCreate ≠ none) ∧
    (kernel_calls (main clock kernel idle)).take 2 =
      [Event.osKernelInitialize,
       Event.osThreadCreate Scope.mainBlock
         { pthread := os_pthread.Thread_LedBlink,
           tpriority := osPriority.osPriorityBelowNormal,
           instances := 1, stacksize := 500 } none] := by
  simp only [main_trace]
  by_cases h1 : kernel.osKernelInitialize = osStatus.osOK <;>
  by_cases h2 : kernel.osThreadCreate = none <;>
  by_cases h3 : kernel.osKernelStart = osStatus.osOK <;>
  simp [reports, printed_texts, report_text, kernel_calls, h1, h2, h3]

/-- C10: `main` registers exactly one task; the descriptor it passes to
`osThreadCreate` is the object declared in the body of `main`, with entry point
`Thread_LedBlink`, priority `osPriorityBelowNormal`, one instance and stack size
500, not the file-scope object of the same name (priority `osPriorityNormal`,
stack size 0). -/
theorem main_registers_block_descriptor (clock : Nat) (kernel : Kernel) (idle : Nat) :
    thread_creations (main clock kernel idle) =
      [(Scope.mainBlock,
        { pthread := os_pthread.Thread_LedBlink,
          tpriority := osPriority.osPriorityBelowNormal,
          instances := 1, stacksize := 500 })] ∧
    fileDeclarations.fileScope =
      { pthread := os_pthread.Thread_LedBlink, tpriority := osPriority.osPriorityNormal,
        instances := 1, stacksize := 0 } ∧
    (Scope.file, fileDeclarations.fileScope) ∉ thread_creations (main clock kernel idle) := by
  simp only [main_trace]
  simp [thread_creations, fileDeclarations]

/-! ## The claims about `Thread_LedBlink` -/

/-- C2: with the program's values (period 1000, fraction 0.1) the thread computes
`on_period = 100` and `off_period = 900`; after 5 passes through the loop
`seconds` is 5 and the durations passed to `osDelay` add up to 5000. -/
theorem blink_five_iterations :
    period = 1000 ∧ duty_periods period dutycycle = some (100, 900) ∧
    ∃ st, Thread_LedBlink 5 = some st ∧ st.seconds = 5 ∧ (delays st.trace).sum = 5000 :=
  ⟨rfl, by decide, _, Thread_LedBlink_eq 5, by decide, by decide⟩

/-- C3, as stated, fails: after `2^32` passes the 32-bit counter `seconds` has
wrapped to 0 and does not equal the number of passes. -/
theorem seconds_wraps_at_two_pow_32 :
    Option.map ThreadState.seconds (Thread_LedBlink 4294967296) = some 0 ∧
    Option.map ThreadState.seconds (Thread_LedBlink 4294967296) ≠ some 4294967296 := by
  have h : Option.map ThreadState.seconds (Thread_LedBlink 4294967296) = some 0 := by
    rw [Thread_LedBlink_eq, Option.map_some', loop_seconds _ _ _ (by decide)]
    rfl
  rw [h]
  exact ⟨rfl, by decide⟩

/-- C3, amended: after `k` passes through the loop the counter `seconds` is
`k mod 2^32` (so it is `k` as long as `k < 2^32`), the values printed so far are
`1, 2, ..., k` reduced the same way, and the LED state changes issued so far are
exactly `ON, OFF` repeated `k` times. -/
theorem blink_after_k_iterations (k : Nat) :
    ∃ st, Thread_LedBlink k = some st ∧
      st.seconds = k % UINT32_MOD ∧
      printed_values st.trace = (List.range k).map (fun i => (i + 1) % UINT32_MOD) ∧
      led_states st.trace = (List.replicate k [LedState.ON, LedState.OFF]).flatten := by
  refine ⟨_, Thread_LedBlink_eq k, ?_, ?_, ?_⟩
  · rw [loop_seconds _ _ _ (by decide)]; simp
  · rw [loop_printed_values _ _ _ (by decide)]; simp [printed_values]
  · rw [loop_led_states]; simp [led_states]

/-- C9: every pass through the loop issues exactly `turnOn`, `osDelay (on_period)`,
`turnOff`, `osDelay (off_period)`, then increments `seconds` and prints the
incremented value, in that order; the two delays of a pass add up to `period`;
the first value printed is 1. -/
theorem blink_iteration_events :
    ∃ on_period off_period, duty_periods period dutycycle = some (on_period, off_period) ∧
      on_period + off_period = period ∧
      (∀ k, ∃ st st2, Thread_LedBlink k = some st ∧ Thread_LedBlink (k + 1) = some st2 ∧
        st2.seconds = (st.seconds + 1) % UINT32_MOD ∧
        st2.trace = st.trace ++
          [Event.turnOn, Event.osDelay on_period, Event.turnOff, Event.osDelay off_period,
           Event.trace_printf "Seconds Elapsed: %u\n" [st2.seconds]]) ∧
      Option.map (fun st => printed_values st.trace) (Thread_LedBlink 1) = some [1] := by
  refine ⟨100, 900, duty_periods_program, rfl, ?_, by decide⟩
  intro k
  refine ⟨_, _, Thread_LedBlink_eq k, Thread_LedBlink_eq (k + 1), rfl, ?_⟩
  simp only [loop, loop_body_trace, loop_body_seconds]

/-! ## The claims about the duty-cycle split -/

/-- C1, as stated, fails: for the period 16777219 and the fraction 0.5 the code
computes `on_period = 8388610`, while `floor (p * f) = 8388609`; the conversion
of the period to `float32_t` rounds it to 16777220 first. -/
theorem duty_split_floor_fails :
    f32_half.isBinary32 ∧ 0 < f32_half.toRat ∧ f32_half.toRat < 1 ∧
    0 < 16777219 ∧ 16777219 < UINT32_MOD ∧
    duty_periods 16777219 f32_half = some (8388610, 8388609) ∧
    ⌊(16777219 : ℚ) * f32_half.toRat⌋₊ = 8388609 := by
  refine ⟨by decide, ?_, ?_, by decide, by decide, by decide, ?_⟩
  · norm_num [Dyadic.toRat, f32_half]
  · norm_num [Dyadic.toRat, f32_half]
  · rw [Nat.floor_eq_iff (by norm_num [Dyadic.toRat, f32_half])]
    norm_num [Dyadic.toRat, f32_half]

/-- C1, amended: for every period `p < 2^32` and every binary32 fraction `f` with
`0 < f < 1`, the split of lines 130-131 is defined, `on_period + off_period = p`
without wrap-around, and `on_period` is the integral part of the single-precision
product of `f` and the period converted to `float32_t`. For `p < 2^24` it is
`floor (p * f)` or `floor (p * f) + 1`, and it is `floor (p * f)` when, in
addition, the exact product `p * f` is itself a binary32 number. -/
theorem duty_split_sum (p : Nat) (f : float32_t) (hp : p < UINT32_MOD) (hf : f.isBinary32)
    (h0 : 0 < f.toRat) (h1 : f.toRat < 1) :
    ∃ on_period off_period, duty_periods p f = some (on_period, off_period) ∧
      on_period + off_period = p ∧
      on_period = ⌊(f32_mul f (u32_to_f32 p)).toRat⌋₊ ∧
      (p < 2 ^ 24 →
        ⌊(p : ℚ) * f.toRat⌋₊ ≤ on_period ∧ on_period ≤ ⌊(p : ℚ) * f.toRat⌋₊ + 1) ∧
      (p < 2 ^ 24 →
        Dyadic.isBinary32 { sign := false, num := f.num * p, scale := f.scale } →
        on_period = ⌊(p : ℚ) * f.toRat⌋₊) := by
  obtain ⟨hs, hnum⟩ := Dyadic.pos_iff h0
  have hlt := Dyadic.lt_one hs h1
  have hle := on_period_le p hf hlt
  have hmul : f32_mul f (u32_to_f32 p) =
      { sign := false, num := roundNearestEven (f.num * roundNearestEven p 0) f.scale,
        scale := f.scale } := by
    unfold f32_mul u32_to_f32 f32_round
    rw [hs]
    rfl
  have hfloor : ⌊(p : ℚ) * f.toRat⌋₊ = f.num * p / 2 ^ f.scale := by
    unfold Dyadic.toRat
    rw [hs]
    simp only [Bool.false_eq_true, if_false, one_mul]
    rw [← mul_div_assoc, ← Nat.cast_mul, floor_dyadic, Nat.mul_comm]
  refine ⟨_, _, duty_periods_eq hs (by omega), ?_, ?_, ?_, ?_⟩
  · generalize roundNearestEven (f.num * roundNearestEven p 0) f.scale / 2 ^ f.scale = n
      at hle ⊢
    unfold UINT32_MOD at hp ⊢
    omega
  · rw [hmul]
    unfold Dyadic.toRat
    simp only [Bool.false_eq_true, if_false, one_mul]
    rw [floor_dyadic]
  · intro hp24
    rw [round_small hp24, hfloor]
    exact on_period_near_floor hp24 hlt
  · intro hp24 hexact
    rw [round_small hp24, hfloor, round_exact hexact.1]

/-- The amended C1 at the program's own period and fraction, where the product
is not exact, and at the period 2 with the program's fraction, where it is. -/
theorem duty_split_sum_witness :
    (period < UINT32_MOD ∧ dutycycle.isBinary32 ∧ 0 < dutycycle.toRat ∧
      dutycycle.toRat < 1 ∧ period < 2 ^ 24 ∧ 2 < 2 ^ 24 ∧
      Dyadic.isBinary32 { sign := false, num := dutycycle.num * 2, scale := dutycycle.scale }) ∧
    (∃ on_period off_period, duty_periods period dutycycle = some (on_period, off_period) ∧
      on_period + off_period = period ∧
      on_period = ⌊(f32_mul dutycycle (u32_to_f32 period)).toRat⌋₊ ∧
      (period < 2 ^ 24 →
        ⌊(period : ℚ) * dutycycle.toRat⌋₊ ≤ on_period ∧
        on_period ≤ ⌊(period : ℚ) * dutycycle.toRat⌋₊ + 1) ∧
      (period < 2 ^ 24 →
        Dyadic.isBinary32
          { sign := false, num := dutycycle.num * period, scale := dutycycle.scale } →
        on_period = ⌊(period : ℚ) * dutycycle.toRat⌋₊)) ∧
    (∃ on_period off_period, duty_periods 2 dutycycle = some (on_period, off_period) ∧
      on_period + off_period = 2 ∧
      on_period = ⌊(f32_mul dutycycle (u32_to_f32 2)).toRat⌋₊ ∧
      (2 < 2 ^ 24 →
        ⌊((2 : Nat) : ℚ) * dutycycle.toRat⌋₊ ≤ on_period ∧
        on_period ≤ ⌊((2 : Nat) : ℚ) * dutycycle.toRat⌋₊ + 1) ∧
      (2 < 2 ^ 24 →
        Dyadic.isBinary32
          { sign := false, num := dutycycle.num * 2, scale := dutycycle.scale } →
        on_period = ⌊((2 : Nat) : ℚ) * dutycycle.toRat⌋₊)) := by
  have hd : dutycycle = { sign := false, num := 13421773 * 2 ^ 28, scale := 55 } := by
    decide
  have hpos : 0 < dutycycle.toRat := by rw [hd]; norm_num [Dyadic.toRat]
  have hlt : dutycycle.toRat < 1 := by rw [hd]; norm_num [Dyadic.toRat]
  exact ⟨⟨by decide, by decide, hpos, hlt, by decide, by decide, by decide⟩,
    duty_split_sum period dutycycle (by decide) (by decide) hpos hlt,
    duty_split_sum 2 dutycycle (by decide) (by decide) hpos hlt⟩

/-- C7, as stated, fails: the code has no validation of the fraction. With the
program's period and the boundary fractions 0 and 1 the durations are computed
(0 and 1000, respectively 1000 and 0) and the loop runs with them. -/
theorem boundary_fractions_accepted :
    f32_zero.isBinary32 ∧ f32_zero.toRat ≤ 0 ∧ f32_one.isBinary32 ∧ 1 ≤ f32_one.toRat ∧
    duty_periods period f32_zero = some (0, 1000) ∧
    duty_periods period f32_one = some (1000, 0) ∧
    Thread_LedBlink_with period f32_zero 1 =
      some (loop 0 1000 1 { seconds := 0, trace := [Event.powerUp] }) ∧
    Thread_LedBlink_with period f32_one 1 =
      some (loop 1000 0 1 { seconds := 0, trace := [Event.powerUp] }) := by
  refine ⟨by decide, ?_, by decide, ?_, by decide, by decide, by decide, by decide⟩
  · norm_num [Dyadic.toRat, f32_zero]
  · norm_num [Dyadic.toRat, f32_one]

/-- C7, amended: at the boundary fractions the code raises no error. For every
period `p < 2^24` (the program's 1000 included), `Thread_LedBlink` with the
fraction 0 computes `on_period = 0`, `off_period = p`, with the fraction 1 it
computes `on_period = p`, `off_period = 0`, and in both cases it runs its loop
with exactly these durations: after any number `k` of passes its state is that
of the loop body run `k` times with them from `seconds = 0` after `powerUp`. -/
theorem boundary_fractions_split (p : Nat) (hp : p < 16777216) :
    duty_periods p f32_zero = some (0, p) ∧
    duty_periods p f32_one = some (p, 0) ∧
    ∀ k,
      Thread_LedBlink_with p f32_zero k =
        some (loop 0 p k { seconds := 0, trace := [Event.powerUp] }) ∧
      Thread_LedBlink_with p f32_one k =
        some (loop p 0 k { seconds := 0, trace := [Event.powerUp] }) := by
  have hp24 : p < 2 ^ 24 := by norm_num; exact hp
  have hzero : duty_periods p f32_zero = some (0, p) := by
    have h0 : roundNearestEven (f32_zero.num * roundNearestEven p 0) f32_zero.scale
        / 2 ^ f32_zero.scale = 0 := by
      have : f32_zero.num * roundNearestEven p 0 = 0 := by simp [f32_zero]
      rw [this]
      show roundNearestEven 0 0 / 2 ^ 0 = 0
      rw [round_small (by norm_num)]; simp
    rw [duty_periods_eq rfl (by rw [h0]; decide), h0]
    have : (p + UINT32_MOD - 0) % UINT32_MOD = p := by
      unfold UINT32_MOD; omega
    rw [this]
  have hone : duty_periods p f32_one = some (p, 0) := by
    have h1 : roundNearestEven (f32_one.num * roundNearestEven p 0) f32_one.scale
        / 2 ^ f32_one.scale = p := by
      have : f32_one.num * roundNearestEven p 0 = p := by
        rw [round_small hp24]; simp [f32_one]
      rw [this]
      show roundNearestEven p 0 / 2 ^ 0 = p
      rw [round_small hp24]; simp
    rw [duty_periods_eq rfl (by rw [h1]; unfold UINT32_MOD; omega), h1]
    have : (p + UINT32_MOD - p) % UINT32_MOD = 0 := by
      unfold UINT32_MOD; omega
    rw [this]
  refine ⟨hzero, hone, fun k => ?_⟩
  unfold Thread_LedBlink_with
  rw [hzero, hone]
  exact ⟨rfl, rfl⟩

/-- The amended C7 at the program's period 1000. -/
theorem boundary_fractions_split_witness :
    1000 < 16777216 ∧
    duty_periods 1000 f32_zero = some (0, 1000) ∧
    duty_periods 1000 f32_one = some (1000, 0) ∧
    ∀ k,
      Thread_LedBlink_with 1000 f32_zero k =
        some (loop 0 1000 k { seconds := 0, trace := [Event.powerUp] }) ∧
      Thread_LedBlink_with 1000 f32_one k =
        some (loop 1000 0 k { seconds := 0, trace := [Event.powerUp] }) :=
  ⟨by decide, boundary_fractions_split 1000 (by decide)⟩

end SparkCore
